import Mathlib

/-!
Shallow embedding of the Vietlott OCR scripts
(`scripts/chatgpt_vision_ocr/chatgpt_ocr.py`, the Power 6/55 pipeline, and
`scripts/chatgpt_vision_ocr/mega_6_45.py`, the Mega 6/45 pipeline).

Text is modelled as `List Char`; the regular-expression fragments used by the
scripts are modelled as deterministic character scanners (the patterns involved
contain no constructs that need backtracking: `\s*` is followed by `\d`, and the
character classes are disjoint).  Machine effects (HTTP, subprocess, file
system) are modelled by explicit state threading plus an `Action` trace.
-/

namespace Vietlott

/-- The whitespace characters recognised by Python `str.split()` (ASCII part). -/
def isSpaceB (c : Char) : Bool :=
  c = ' ' || c = '\t' || c = '\n' || c = '\r' || c = Char.ofNat 11 || c = Char.ofNat 12

/-- `text.replace(a, b)` for single characters: a character-wise map. -/
def replaceChar (a b : Char) (s : List Char) : List Char :=
  s.map (fun c => if c = a then b else c)

/-- `text.replace("  ", " ")`: Python replaces non-overlapping occurrences of a
double space left to right by a single space. -/
def collapseDS : List Char → List Char
  | [] => []
  | [c] => [c]
  | c1 :: c2 :: rest =>
    if c1 = ' ' ∧ c2 = ' ' then ' ' :: collapseDS rest
    else c1 :: collapseDS (c2 :: rest)

/-- `str.split()` (no separator): split on runs of whitespace, dropping empty
tokens.  `acc` holds the characters of the current token, reversed. -/
def splitWSAux : List Char → List Char → List (List Char)
  | [], acc => if acc = [] then [] else [acc.reverse]
  | c :: rest, acc =>
    if isSpaceB c then
      if acc = [] then splitWSAux rest [] else acc.reverse :: splitWSAux rest []
    else splitWSAux rest (c :: acc)

def splitWS (s : List Char) : List (List Char) := splitWSAux s []

/-- The first two separator replacements,
`text.replace('-', ' ').replace(',', ' ')`. -/
def replDashComma (s : List Char) : List Char :=
  replaceChar ',' ' ' (replaceChar '-' ' ' s)

/-- The token stream both scripts build in `parse_numbers_from_response`:
`text.replace('-', ' ').replace(',', ' ').replace('  ', ' ').split()`. -/
def tokensOf (s : List Char) : List (List Char) :=
  splitWS (collapseDS (replDashComma s))

/-- Numeric value of a big-endian list of decimal digit characters
(`int(...)` on a digit string). -/
def digitsToNat (s : List Char) : ℕ :=
  s.foldl (fun a c => 10 * a + (c.toNat - 48)) 0

/-- First maximal digit run in a token: `re.search(r"\d+", part)`. -/
def firstRun : List Char → Option (List Char)
  | [] => none
  | c :: rest =>
    if c.isDigit then some ((c :: rest).takeWhile Char.isDigit) else firstRun rest

/-- `int(match.group())` for the first digit run of a token, if any. -/
def firstNum (s : List Char) : Option ℕ := (firstRun s).map digitsToNat

/-- The collection loop of `parse_numbers_from_response`: walk the tokens, keep
each embedded integer that is in `[lo, hi]` and not yet collected, and stop as
soon as six numbers have been collected. -/
def collectNums (lo hi : ℕ) : List (List Char) → List ℕ → List ℕ
  | [], numbers => numbers
  | part :: parts, numbers =>
    match firstNum part with
    | none => collectNums lo hi parts numbers
    | some num =>
      if lo ≤ num ∧ num ≤ hi ∧ num ∉ numbers then
        if (numbers ++ [num]).length = 6 then numbers ++ [num]
        else collectNums lo hi parts (numbers ++ [num])
      else collectNums lo hi parts numbers

/-- `parse_numbers_from_response` with the game's bounds as parameters:
tokenize, collect, then `numbers.sort()`. -/
def parseNums (lo hi : ℕ) (text : List Char) : List ℕ :=
  List.insertionSort (· ≤ ·) (collectNums lo hi (tokensOf text) [])

/-- Match the literal characters `lit` at the head of `s`, returning the rest. -/
def stripLit : List Char → List Char → Option (List Char)
  | [], s => some s
  | _ :: _, [] => none
  | c :: p, x :: s => if x = c then stripLit p s else none

/-- Consume exactly `k` decimal digits (the regex `\d{k}`). -/
def grabDigits : ℕ → List Char → Option (List Char × List Char)
  | 0, s => some ([], s)
  | _ + 1, [] => none
  | k + 1, c :: s =>
    if c.isDigit then (grabDigits k s).map (fun p => (c :: p.1, p.2)) else none

/-- One attempted match of `Date:\s*(\d{2})/(\d{2})/(\d{4})` anchored at the
start of `s`, returning the groups `(day, month, year)`.  Greedy `\s*` needs no
backtracking here because whitespace and digits are disjoint. -/
def matchDateAt (s : List Char) : Option (ℕ × ℕ × ℕ) :=
  match stripLit ("Date:".toList) s with
  | none => none
  | some s1 =>
    match grabDigits 2 (s1.dropWhile isSpaceB) with
    | none => none
    | some (dd, s3) =>
      match s3 with
      | '/' :: s4 =>
        match grabDigits 2 s4 with
        | none => none
        | some (mm, s5) =>
          match s5 with
          | '/' :: s6 =>
            match grabDigits 4 s6 with
            | none => none
            | some (yy, _) => some (digitsToNat dd, digitsToNat mm, digitsToNat yy)
          | _ => none
      | _ => none

/-- `re.search`: the leftmost match of the date pattern in the text. -/
def findDate : List Char → Option (ℕ × ℕ × ℕ)
  | [] => none
  | c :: rest =>
    match matchDateAt (c :: rest) with
    | some r => some r
    | none => findDate rest

/-- A naive `datetime.datetime` value (whole seconds). -/
structure PyDatetime where
  year : ℕ
  month : ℕ
  day : ℕ
  hour : ℕ
  minute : ℕ
  second : ℕ
deriving DecidableEq, Repr

/-- Gregorian leap year, as used by `datetime`. -/
def isLeap (y : ℕ) : Bool := y % 4 == 0 && (y % 100 != 0 || y % 400 == 0)

def daysInMonth (y m : ℕ) : ℕ :=
  if m == 2 then (if isLeap y then 29 else 28)
  else if m == 4 || m == 6 || m == 9 || m == 11 then 30
  else 31

/-- The validity check performed by the `datetime.datetime(...)` constructor
(`MINYEAR = 1`, `MAXYEAR = 9999`). -/
def validDatetime (y m d hh mi ss : ℕ) : Bool :=
  decide (1 ≤ y ∧ y ≤ 9999 ∧ 1 ≤ m ∧ m ≤ 12 ∧ 1 ≤ d ∧ d ≤ daysInMonth y m ∧
    hh ≤ 23 ∧ mi ≤ 59 ∧ ss ≤ 59)

/-- `datetime.datetime(y, m, d, hh, mi, ss)`: raises `ValueError` on an
impossible date, modelled as `Except.error`. -/
def mkDatetime (y m d hh mi ss : ℕ) : Except (List Char) PyDatetime :=
  if validDatetime y m d hh mi ss then Except.ok ⟨y, m, d, hh, mi, ss⟩
  else Except.error ("ValueError: invalid date".toList)

/-- `parse_date_from_response` (identical in both scripts): first match of the
date pattern, fed to the `datetime` constructor with time 18:00:00; `None` when
the pattern does not occur; a raised `ValueError` is an `Except.error`. -/
def parseDate (text : List Char) : Except (List Char) (Option PyDatetime) :=
  match findDate text with
  | some (d, m, y) => (mkDatetime y m d 18 0 0).map some
  | none => Except.ok none

/-- Little-endian decimal digit characters of `n`, with explicit fuel so that
the definition is structurally recursive. -/
def toDigitsRev : ℕ → ℕ → List Char
  | 0, _ => []
  | fuel + 1, n => if n = 0 then [] else Nat.digitChar (n % 10) :: toDigitsRev fuel (n / 10)

/-- Decimal digit characters of `n`, most significant first (`str(n)`). -/
def natToDigits (n : ℕ) : List Char :=
  if n = 0 then ['0'] else (toDigitsRev n n).reverse

/-- Zero-pad to width `w`: Python `f"{n:0wd}"`. -/
def padNum (w n : ℕ) : List Char :=
  List.replicate (w - (natToDigits n).length) '0' ++ natToDigits n

/-- `datetime.isoformat()` for a whole-second datetime. -/
def isoformat (t : PyDatetime) : List Char :=
  padNum 4 t.year ++ '-' :: padNum 2 t.month ++ '-' :: padNum 2 t.day ++
    'T' :: padNum 2 t.hour ++ ':' :: padNum 2 t.minute ++ ':' :: padNum 2 t.second

/-- The JSON record built by `save_draw`. -/
structure DrawRec where
  id : List Char
  game_type : List Char
  draw_number : ℕ
  numbers : List ℕ
  draw_date : List Char
deriving DecidableEq, Repr

namespace Power

/-- `VietlottChatGPTOCR.parse_numbers_from_response` (valid range 1..55). -/
def parse_numbers_from_response (text : List Char) : List ℕ := parseNums 1 55 text

/-- `VietlottChatGPTOCR.parse_date_from_response`. -/
def parse_date_from_response (text : List Char) : Except (List Char) (Option PyDatetime) :=
  parseDate text

/-- `VietlottChatGPTOCR.save_draw`: the record written to
`data/draws/power_6_55/power_<n>.json`. -/
def save_draw (draw_number : ℕ) (numbers : List ℕ) (draw_date : PyDatetime) : DrawRec :=
  { id := "power_".toList ++ padNum 5 draw_number
    game_type := "POWER_6_55".toList
    draw_number := draw_number
    numbers := numbers
    draw_date := isoformat draw_date ++ ['Z'] }

end Power

namespace Mega

/-- `VietlottMegaOCR.parse_numbers_from_response` (valid range 1..45). -/
def parse_numbers_from_response (text : List Char) : List ℕ := parseNums 1 45 text

/-- `VietlottMegaOCR.parse_date_from_response`. -/
def parse_date_from_response (text : List Char) : Except (List Char) (Option PyDatetime) :=
  parseDate text

/-- `VietlottMegaOCR.save_draw`: the record written to
`data/draws/mega_6_45/mega_<n>.json`. -/
def save_draw (draw_number : ℕ) (numbers : List ℕ) (draw_date : PyDatetime) : DrawRec :=
  { id := "mega_".toList ++ padNum 5 draw_number
    game_type := "MEGA_6_45".toList
    draw_number := draw_number
    numbers := numbers
    draw_date := isoformat draw_date ++ ['Z'] }

end Mega

/-! ## Operational model: effects, per-draw processing, converter, client -/

/-- The externally visible effects of the scripts, recorded as a trace. -/
inductive Action where
  | fetchPage : Action
  | download : Action
  | convertRun : Action
  | modelCall : Action
  | write : List Char → DrawRec → Action
  | makedir : List Char → Action
  | scanDir : Action
  | updateNotice : Action
deriving DecidableEq, Repr

/-- The per-run counters printed in the summary. -/
structure Counters where
  total : ℕ
  saved : ℕ
  failed : ℕ
deriving DecidableEq, Repr

/-- Look a filename up in the output store. -/
def lookupF : List (List Char × DrawRec) → List Char → Option DrawRec
  | [], _ => none
  | p :: ps, k => if p.1 = k then some p.2 else lookupF ps k

/-- Write (create or overwrite) a file in the output store. -/
def setF (store : List (List Char × DrawRec)) (k : List Char) (v : DrawRec) :
    List (List Char × DrawRec) :=
  (k, v) :: store.filter (fun p => decide (¬ p.1 = k))

/-- The error message raised by both constructors when no API key is found. -/
def apiKeyErrMsg : List Char :=
  ("OpenAI API key not found!\nGet your API key from: https://platform.openai.com/api-keys\nThen set it as: export OPENAI_API_KEY=\x27your-api-key-here\x27").toList

/-- Does `pat` occur at the head of the text? -/
def startsW : List Char → List Char → Bool
  | [], _ => true
  | _ :: _, [] => false
  | c :: p, x :: s => x == c && startsW p s

/-- Substring occurrence test. -/
def hasSub (pat : List Char) : List Char → Bool
  | [] => pat.isEmpty
  | c :: rest => startsW pat (c :: rest) || hasSub pat rest

namespace Power

/-- `VietlottChatGPTOCR.extract_numbers_with_chatgpt`, with the model's reply
text supplied as an oracle parameter (the HTTP call itself is the caller's
`modelCall` action).  The date is parsed before the numbers, so a `ValueError`
raised by the `datetime` constructor propagates before numbers are parsed. -/
def extract_numbers_with_chatgpt (reply : List Char) :
    Except (List Char) (List ℕ × Option PyDatetime) :=
  match parse_date_from_response reply with
  | Except.error e => Except.error e
  | Except.ok dt => Except.ok (parse_numbers_from_response reply, dt)

/-- The image path `IMAGE_DIR/draw_<n>.png` of the Power script. -/
def imagePath (draw_number : ℕ) : List Char :=
  "/tmp/vietlott_images/draw_".toList ++ padNum 5 draw_number ++ ".png".toList

/-- `VietlottChatGPTOCR.convert_pdf_to_image`.  `run = (returncode, creates)`
is the oracle for the external `pdftoppm` process; the last component counts
its invocations.  A failure is a raised exception, i.e. `Except.error`. -/
def convert_pdf_to_image (run : ℕ × Bool) (imageFs : List (List Char))
    (pdf_path : List Char) (draw_number : ℕ) :
    Except (List Char) (List Char) × List (List Char) × ℕ :=
  if imagePath draw_number ∈ imageFs then (Except.ok (imagePath draw_number), imageFs, 0)
  else
    let fs2 := if run.2 then imagePath draw_number :: imageFs else imageFs
    if run.1 ≠ 0 then (Except.error ("pdftoppm failed".toList), fs2, 1)
    else if imagePath draw_number ∈ fs2 then (Except.ok (imagePath draw_number), fs2, 1)
    else (Except.error ("Image not created".toList), fs2, 1)

/-- One iteration of the loop in
`VietlottChatGPTOCR.process_existing_images`: an existing draw id only causes
an "updating" notice, after which the draw is reprocessed; a successful
extraction of six numbers and a date overwrites the output file. -/
def processOne (existing : List (List Char)) (store : List (List Char × DrawRec))
    (c : Counters) (draw_number : ℕ) (reply : List Char) :
    List (List Char × DrawRec) × Counters × List Action :=
  let draw_id := "power_".toList ++ padNum 5 draw_number
  let pre : List Action := if draw_id ∈ existing then [Action.updateNotice] else []
  match extract_numbers_with_chatgpt reply with
  | Except.error _ =>
    (store, { c with failed := c.failed + 1 }, pre ++ [Action.modelCall])
  | Except.ok (numbers, odt) =>
    match odt with
    | some dt =>
      if numbers.length = 6 then
        (setF store ("power_".toList ++ padNum 5 draw_number ++ ".json".toList)
            (save_draw draw_number numbers dt),
          { c with total := c.total + 1, saved := c.saved + 1 },
          pre ++ [Action.modelCall,
            Action.write ("power_".toList ++ padNum 5 draw_number ++ ".json".toList)
              (save_draw draw_number numbers dt)])
      else (store, { c with total := c.total + 1, failed := c.failed + 1 },
        pre ++ [Action.modelCall])
    | none => (store, { c with total := c.total + 1, failed := c.failed + 1 },
      pre ++ [Action.modelCall])

/-- `VietlottChatGPTOCR.__init__`: with no explicit key and no
`OPENAI_API_KEY` in the environment, an exception is raised before the
existing-draw scan; otherwise the output-directory listing is scanned. -/
def initClient (api_key : Option (List Char)) (env : List Char → Option (List Char))
    (listing : List (List Char)) :
    Except (List Char) (List (List Char)) × List Action :=
  match api_key with
  | some _ => (Except.ok listing, [Action.scanDir])
  | none =>
    match env ("OPENAI_API_KEY".toList) with
    | some _ => (Except.ok listing, [Action.scanDir])
    | none => (Except.error apiKeyErrMsg, [])

end Power

namespace Mega

/-- `VietlottMegaOCR.extract_numbers_with_chatgpt` (reply as oracle). -/
def extract_numbers_with_chatgpt (reply : List Char) :
    Except (List Char) (List ℕ × Option PyDatetime) :=
  match parse_date_from_response reply with
  | Except.error e => Except.error e
  | Except.ok dt => Except.ok (parse_numbers_from_response reply, dt)

/-- The image path `IMAGE_DIR/draw_<n>.png` of the Mega script. -/
def imagePath (draw_number : ℕ) : List Char :=
  "/tmp/vietlott_images_mega/draw_".toList ++ padNum 5 draw_number ++ ".png".toList

/-- The PDF path `PDF_DIR/draw_<n>.pdf` of the Mega script. -/
def pdfPath (draw_number : ℕ) : List Char :=
  "/tmp/vietlott_pdfs_mega/draw_".toList ++ padNum 5 draw_number ++ ".pdf".toList

/-- `VietlottMegaOCR.download_pdf`: returns the cached path without any HTTP
request when the PDF already exists; otherwise the oracle decides success. -/
def download_pdf (downloadOk : Bool) (pdfFs : List (List Char)) (draw_number : ℕ) :
    Option (List Char) × List (List Char) × List Action :=
  if pdfPath draw_number ∈ pdfFs then (some (pdfPath draw_number), pdfFs, [])
  else if downloadOk then (some (pdfPath draw_number), pdfPath draw_number :: pdfFs,
    [Action.download])
  else (none, pdfFs, [Action.download])

/-- `VietlottMegaOCR.convert_pdf_to_image`: as the Power variant but failures
are caught inside and reported as `None`. -/
def convert_pdf_to_image (run : ℕ × Bool) (imageFs : List (List Char))
    (pdf_path : List Char) (draw_number : ℕ) :
    Option (List Char) × List (List Char) × ℕ :=
  if imagePath draw_number ∈ imageFs then (some (imagePath draw_number), imageFs, 0)
  else
    let fs2 := if run.2 then imagePath draw_number :: imageFs else imageFs
    if run.1 ≠ 0 then (none, fs2, 1)
    else if imagePath draw_number ∈ fs2 then (some (imagePath draw_number), fs2, 1)
    else (none, fs2, 1)

/-- Oracles for one Mega draw: HTTP download outcome, `pdftoppm` outcome, and
the model's reply text. -/
structure MegaOracle where
  downloadOk : Bool
  run : ℕ × Bool
  reply : List Char

/-- One iteration of the loop in `VietlottMegaOCR.process_all_draws`: a draw
whose id is already present is skipped before any work; otherwise download,
convert, extract (with the listing-page date as fallback), then save. -/
def processOne (existing : List (List Char)) (store : List (List Char × DrawRec))
    (pdfFs imageFs : List (List Char)) (c : Counters) (draw_number : ℕ)
    (pdf_url : List Char) (known_date : Option PyDatetime) (o : MegaOracle) :
    List (List Char × DrawRec) × List (List Char) × List (List Char) ×
      Counters × List Action :=
  if "mega_".toList ++ padNum 5 draw_number ∈ existing then
    (store, pdfFs, imageFs, c, [])
  else
    match download_pdf o.downloadOk pdfFs draw_number with
    | (none, pdfFs2, acts) =>
      (store, pdfFs2, imageFs, { c with failed := c.failed + 1 }, acts)
    | (some pdf_path, pdfFs2, acts) =>
      match convert_pdf_to_image o.run imageFs pdf_path draw_number with
      | (none, imageFs2, k) =>
        (store, pdfFs2, imageFs2, { c with failed := c.failed + 1 },
          acts ++ List.replicate k Action.convertRun)
      | (some _, imageFs2, k) =>
        match extract_numbers_with_chatgpt o.reply with
        | Except.error _ =>
          (store, pdfFs2, imageFs2, { c with failed := c.failed + 1 },
            acts ++ List.replicate k Action.convertRun ++ [Action.modelCall])
        | Except.ok (numbers, odt) =>
          match (match odt with | none => known_date | some d => some d) with
          | some dt =>
            if numbers.length = 6 then
              (setF store ("mega_".toList ++ padNum 5 draw_number ++ ".json".toList)
                  (save_draw draw_number numbers dt),
                pdfFs2, imageFs2,
                { c with total := c.total + 1, saved := c.saved + 1 },
                acts ++ List.replicate k Action.convertRun ++
                  [Action.modelCall,
                    Action.write ("mega_".toList ++ padNum 5 draw_number ++ ".json".toList)
                      (save_draw draw_number numbers dt)])
            else (store, pdfFs2, imageFs2,
              { c with total := c.total + 1, failed := c.failed + 1 },
              acts ++ List.replicate k Action.convertRun ++ [Action.modelCall])
          | none => (store, pdfFs2, imageFs2,
            { c with total := c.total + 1, failed := c.failed + 1 },
            acts ++ List.replicate k Action.convertRun ++ [Action.modelCall])

/-- `VietlottMegaOCR.__init__`: raises before the `makedirs` calls and the
existing-draw scan when no API key is available. -/
def initClient (api_key : Option (List Char)) (env : List Char → Option (List Char))
    (listing : List (List Char)) :
    Except (List Char) (List (List Char)) × List Action :=
  match api_key with
  | some _ => (Except.ok listing,
    [Action.makedir ("/tmp/vietlott_pdfs_mega".toList),
      Action.makedir ("/tmp/vietlott_images_mega".toList),
      Action.makedir ("data/draws/mega_6_45".toList), Action.scanDir])
  | none =>
    match env ("OPENAI_API_KEY".toList) with
    | some _ => (Except.ok listing,
      [Action.makedir ("/tmp/vietlott_pdfs_mega".toList),
        Action.makedir ("/tmp/vietlott_images_mega".toList),
        Action.makedir ("data/draws/mega_6_45".toList), Action.scanDir])
    | none => (Except.error apiKeyErrMsg, [])

end Mega

/-- The two-line reply in the prompted format: `Date: DD/MM/YYYY` then
`Numbers: n1, ..., n6` with each number printed two digits wide. -/
def joinComma : List (List Char) → List Char
  | [] => []
  | [t] => t
  | t1 :: t2 :: ts => t1 ++ ',' :: ' ' :: joinComma (t2 :: ts)

def mkReply (d m y : ℕ) (ns : List ℕ) : List Char :=
  "Date: ".toList ++ padNum 2 d ++ "/".toList ++ padNum 2 m ++ "/".toList ++
    padNum 4 y ++ "\nNumbers: ".toList ++ joinComma (ns.map (padNum 2))

/-! ## Characterisation of the number-collection loop -/

/-- The candidate integers of a reply: the first embedded integer of each
token, in token order. -/
def candidatesOf (s : List Char) : List ℕ := (tokensOf s).filterMap firstNum

/-- The in-range test of the collection loop, as a Boolean predicate. -/
def inRangeF (lo hi n : ℕ) : Bool := decide (lo ≤ n ∧ n ≤ hi)

/-- The number of distinct in-range candidate integers of a reply. -/
def distinctInRange (lo hi : ℕ) (s : List Char) : ℕ :=
  ((candidatesOf s).filter (inRangeF lo hi)).toFinset.card

/-- First-occurrence deduplication of `l` relative to the already-seen list. -/
def dedupFrom (seen : List ℕ) : List ℕ → List ℕ
  | [] => []
  | n :: l => if n ∈ seen then dedupFrom seen l else n :: dedupFrom (n :: seen) l

theorem dedupFrom_congr : ∀ (l s t : List ℕ), (∀ x, x ∈ s ↔ x ∈ t) →
    dedupFrom s l = dedupFrom t l := by
  intro l
  induction l with
  | nil => intro s t _; rfl
  | cons n l ih =>
    intro s t h
    by_cases hn : n ∈ s
    · simp only [dedupFrom, if_pos hn, if_pos ((h n).mp hn)]
      exact ih s t h
    · have hn2 : n ∉ t := fun hc => hn ((h n).mpr hc)
      simp only [dedupFrom, if_neg hn, if_neg hn2]
      rw [ih (n :: s) (n :: t) (fun x => by simp [List.mem_cons, h x])]

theorem mem_dedupFrom {x : ℕ} : ∀ {seen l : List ℕ},
    x ∈ dedupFrom seen l ↔ x ∈ l ∧ x ∉ seen := by
  intro seen l
  induction l generalizing seen with
  | nil => simp [dedupFrom]
  | cons n l ih =>
    by_cases hn : n ∈ seen
    · rw [show dedupFrom seen (n :: l) = dedupFrom seen l by simp [dedupFrom, hn]]
      rw [ih]
      constructor
      · rintro ⟨h1, h2⟩
        exact ⟨List.mem_cons_of_mem _ h1, h2⟩
      · rintro ⟨h1, h2⟩
        rcases List.mem_cons.mp h1 with rfl | h1
        · exact absurd hn h2
        · exact ⟨h1, h2⟩
    · rw [show dedupFrom seen (n :: l) = n :: dedupFrom (n :: seen) l by
        simp [dedupFrom, hn]]
      constructor
      · intro hmem
        rcases List.mem_cons.mp hmem with rfl | hmem
        · exact ⟨List.mem_cons_self _ _, hn⟩
        · have h3 := ih.mp hmem
          exact ⟨List.mem_cons_of_mem _ h3.1,
            fun hc => h3.2 (List.mem_cons_of_mem _ hc)⟩
      · rintro ⟨h1, h2⟩
        by_cases hxn : x = n
        · exact hxn ▸ List.mem_cons_self _ _
        · rcases List.mem_cons.mp h1 with h | h
          · exact absurd h hxn
          · refine List.mem_cons_of_mem _ (ih.mpr ⟨h, fun hc => ?_⟩)
            rcases List.mem_cons.mp hc with h4 | h4
            · exact hxn h4
            · exact h2 h4

theorem nodup_dedupFrom : ∀ (seen l : List ℕ), (dedupFrom seen l).Nodup := by
  intro seen l
  induction l generalizing seen with
  | nil => simp [dedupFrom]
  | cons n l ih =>
    by_cases hn : n ∈ seen
    · simpa [dedupFrom, hn] using ih seen
    · simp only [dedupFrom, if_neg hn, List.nodup_cons]
      refine ⟨fun hc => ?_, ih (n :: seen)⟩
      have := mem_dedupFrom.mp hc
      simp at this

theorem length_dedupFrom : ∀ (seen l : List ℕ),
    (dedupFrom seen l).length = (l.toFinset \ seen.toFinset).card := by
  intro seen l
  induction l generalizing seen with
  | nil => simp [dedupFrom]
  | cons n l ih =>
    simp only [List.toFinset_cons]
    by_cases hn : n ∈ seen
    · rw [show dedupFrom seen (n :: l) = dedupFrom seen l by simp [dedupFrom, hn]]
      rw [ih seen, Finset.insert_sdiff_of_mem _ (List.mem_toFinset.mpr hn)]
    · rw [show dedupFrom seen (n :: l) = n :: dedupFrom (n :: seen) l by
        simp [dedupFrom, hn]]
      simp only [List.length_cons, ih (n :: seen), List.toFinset_cons]
      rw [Finset.sdiff_insert, Finset.insert_sdiff_of_not_mem _
        (by simpa using hn)]
      set S := l.toFinset \ seen.toFinset with hS
      by_cases hns : n ∈ S
      · rw [Finset.card_erase_of_mem hns, Finset.insert_eq_self.mpr hns]
        have : 1 ≤ S.card := Finset.card_pos.mpr ⟨n, hns⟩
        omega
      · rw [Finset.erase_eq_of_not_mem hns, Finset.card_insert_of_not_mem hns]

theorem collectNums_eq (lo hi : ℕ) (parts : List (List Char)) :
    ∀ (acc : List ℕ), acc.length < 6 →
      collectNums lo hi parts acc =
        acc ++ (dedupFrom acc ((parts.filterMap firstNum).filter
          (inRangeF lo hi))).take (6 - acc.length) := by
  induction parts with
  | nil =>
    intro acc _
    simp [collectNums, dedupFrom]
  | cons part parts ih =>
    intro acc hacc
    cases hfn : firstNum part with
    | none =>
      rw [show collectNums lo hi (part :: parts) acc = collectNums lo hi parts acc by
        simp [collectNums, hfn]]
      rw [ih acc hacc, List.filterMap_cons_none hfn]
    | some num =>
      rw [List.filterMap_cons_some hfn]
      by_cases hin : lo ≤ num ∧ num ≤ hi
      · have hF : inRangeF lo hi num = true := by
          simp [inRangeF, hin.1, hin.2]
        rw [List.filter_cons_of_pos hF]
        by_cases hmem : num ∈ acc
        · rw [show collectNums lo hi (part :: parts) acc = collectNums lo hi parts acc by
            simp only [collectNums, hfn]
            rw [if_neg (by simp [hmem])]]
          rw [ih acc hacc, show dedupFrom acc (num :: (parts.filterMap firstNum).filter
            (inRangeF lo hi)) = dedupFrom acc ((parts.filterMap firstNum).filter
            (inRangeF lo hi)) by simp [dedupFrom, hmem]]
        · have hstep : collectNums lo hi (part :: parts) acc =
              if (acc ++ [num]).length = 6 then acc ++ [num]
              else collectNums lo hi parts (acc ++ [num]) := by
            simp only [collectNums, hfn]
            rw [if_pos ⟨hin.1, hin.2, hmem⟩]
          rw [hstep, show dedupFrom acc (num :: (parts.filterMap firstNum).filter
            (inRangeF lo hi)) = num :: dedupFrom (num :: acc)
              ((parts.filterMap firstNum).filter (inRangeF lo hi)) by
            simp [dedupFrom, hmem]]
          have h6 : 6 - acc.length = (6 - (acc.length + 1)) + 1 := by omega
          rw [h6, List.take_succ_cons]
          by_cases hlen : (acc ++ [num]).length = 6
          · have ha5 : acc.length = 5 := by
              simpa using hlen
            rw [if_pos hlen]
            simp [ha5]
          · rw [if_neg hlen]
            have hlt : (acc ++ [num]).length < 6 := by
              simp only [List.length_append, List.length_cons, List.length_nil] at hlen ⊢
              omega
            rw [ih (acc ++ [num]) hlt]
            rw [dedupFrom_congr ((parts.filterMap firstNum).filter (inRangeF lo hi))
              (acc ++ [num]) (num :: acc)
              (fun x => by simp [List.mem_append, List.mem_cons, or_comm])]
            simp only [List.length_append, List.length_cons, List.length_nil,
              List.append_assoc, List.cons_append, List.nil_append]
      · have hF : inRangeF lo hi num = false := by
          simp only [inRangeF, decide_eq_false_iff_not]
          tauto
        rw [List.filter_cons_of_neg (by simp [hF])]
        rw [show collectNums lo hi (part :: parts) acc = collectNums lo hi parts acc by
          simp only [collectNums, hfn]
          rw [if_neg (by tauto)]]
        exact ih acc hacc

theorem parseNums_eq (lo hi : ℕ) (text : List Char) :
    parseNums lo hi text = List.insertionSort (· ≤ ·)
      ((dedupFrom [] ((candidatesOf text).filter (inRangeF lo hi))).take 6) := by
  unfold parseNums candidatesOf
  rw [collectNums_eq lo hi _ [] (by norm_num)]
  simp

theorem parseNums_sorted (lo hi : ℕ) (text : List Char) :
    List.Sorted (· ≤ ·) (parseNums lo hi text) :=
  List.sorted_insertionSort _ _

theorem parseNums_nodup (lo hi : ℕ) (text : List Char) :
    (parseNums lo hi text).Nodup := by
  rw [parseNums_eq]
  refine (List.perm_insertionSort _ _).nodup_iff.mpr ?_
  exact (List.take_sublist _ _).nodup (nodup_dedupFrom _ _)

theorem parseNums_mem {lo hi : ℕ} {text : List Char} {x : ℕ}
    (h : x ∈ parseNums lo hi text) :
    x ∈ candidatesOf text ∧ lo ≤ x ∧ x ≤ hi := by
  rw [parseNums_eq] at h
  have h2 := (List.take_sublist _ _).mem ((List.perm_insertionSort _ _).mem_iff.mp h)
  have h3 := (mem_dedupFrom.mp h2).1
  have h4 := List.of_mem_filter h3
  refine ⟨List.mem_of_mem_filter h3, ?_⟩
  simpa [inRangeF] using h4

theorem parseNums_length (lo hi : ℕ) (text : List Char) :
    (parseNums lo hi text).length = min 6 (distinctInRange lo hi text) := by
  rw [parseNums_eq, (List.perm_insertionSort _ _).length_eq, List.length_take,
    length_dedupFrom, distinctInRange]
  simp

/-- C4: for every input string whatsoever, `parse_numbers_from_response`
returns a sorted, duplicate-free list of at most six integers, each inside the
game's valid range ([1,55] for the Power script, [1,45] for the Mega script);
out-of-range integers in the reply are excluded. -/
theorem c4_parse_invariants (text : List Char) :
    (List.Sorted (· ≤ ·) (Power.parse_numbers_from_response text) ∧
      (Power.parse_numbers_from_response text).Nodup ∧
      (Power.parse_numbers_from_response text).length ≤ 6 ∧
      ∀ x ∈ Power.parse_numbers_from_response text, 1 ≤ x ∧ x ≤ 55) ∧
    (List.Sorted (· ≤ ·) (Mega.parse_numbers_from_response text) ∧
      (Mega.parse_numbers_from_response text).Nodup ∧
      (Mega.parse_numbers_from_response text).length ≤ 6 ∧
      ∀ x ∈ Mega.parse_numbers_from_response text, 1 ≤ x ∧ x ≤ 45) := by
  refine ⟨⟨parseNums_sorted 1 55 text, parseNums_nodup 1 55 text, ?_, ?_⟩,
    ⟨parseNums_sorted 1 45 text, parseNums_nodup 1 45 text, ?_, ?_⟩⟩
  · rw [Power.parse_numbers_from_response, parseNums_length]
    omega
  · exact fun x hx => (parseNums_mem hx).2
  · rw [Mega.parse_numbers_from_response, parseNums_length]
    omega
  · exact fun x hx => (parseNums_mem hx).2

/-! ## Decimal rendering and parsing round-trip -/

theorem toDigitsRev_eq : ∀ (fuel n : ℕ), n ≤ fuel →
    toDigitsRev fuel n = (Nat.digits 10 n).map Nat.digitChar := by
  intro fuel
  induction fuel with
  | zero =>
    intro n hn
    interval_cases n
    simp [toDigitsRev]
  | succ fuel ih =>
    intro n hn
    by_cases h0 : n = 0
    · subst h0
      simp [toDigitsRev]
    · rw [show toDigitsRev (fuel + 1) n =
        Nat.digitChar (n % 10) :: toDigitsRev fuel (n / 10) by simp [toDigitsRev, h0]]
      have hlt : n / 10 < n := Nat.div_lt_self (Nat.pos_of_ne_zero h0) (by norm_num)
      rw [ih (n / 10) (by omega)]
      rw [Nat.digits_def' (by norm_num : 1 < 10) (Nat.pos_of_ne_zero h0)]
      simp

theorem digitChar_isDigit {dg : ℕ} (h : dg < 10) : (Nat.digitChar dg).isDigit = true := by
  interval_cases dg <;> decide

theorem digitChar_toNat {dg : ℕ} (h : dg < 10) : (Nat.digitChar dg).toNat = 48 + dg := by
  interval_cases dg <;> decide

theorem natToDigits_ne_nil (n : ℕ) : natToDigits n ≠ [] := by
  unfold natToDigits
  by_cases h0 : n = 0
  · simp [h0]
  · rw [if_neg h0, toDigitsRev_eq n n le_rfl]
    simp [Nat.digits_ne_nil_iff_ne_zero.mpr h0]

theorem natToDigits_isDigit (n : ℕ) : ∀ c ∈ natToDigits n, c.isDigit = true := by
  intro c hc
  unfold natToDigits at hc
  by_cases h0 : n = 0
  · rw [if_pos h0] at hc
    simp only [List.mem_singleton] at hc
    subst hc
    decide
  · rw [if_neg h0, toDigitsRev_eq n n le_rfl, List.mem_reverse] at hc
    obtain ⟨dg, hdg, rfl⟩ := List.mem_map.mp hc
    exact digitChar_isDigit (Nat.digits_lt_base (by norm_num) hdg)

theorem foldl_digits_val : ∀ (L : List ℕ), (∀ dg ∈ L, dg < 10) → ∀ (a : ℕ),
    List.foldl (fun acc c => 10 * acc + (c.toNat - 48)) a ((L.map Nat.digitChar).reverse) =
      a * 10 ^ L.length + Nat.ofDigits 10 L := by
  intro L
  induction L with
  | nil =>
    intro _ a
    simp [Nat.ofDigits]
  | cons dg L ih =>
    intro h a
    rw [List.map_cons, List.reverse_cons, List.foldl_append]
    rw [ih (fun x hx => h x (List.mem_cons_of_mem _ hx)) a]
    simp only [List.foldl_cons, List.foldl_nil]
    rw [digitChar_toNat (h dg (List.mem_cons_self _ _))]
    have h48 : 48 + dg - 48 = dg := by omega
    rw [h48, Nat.ofDigits_cons]
    simp only [List.length_cons, pow_succ]
    ring

theorem digitsToNat_natToDigits (n : ℕ) : digitsToNat (natToDigits n) = n := by
  unfold natToDigits digitsToNat
  by_cases h0 : n = 0
  · rw [if_pos h0]
    subst h0
    decide
  · rw [if_neg h0, toDigitsRev_eq n n le_rfl]
    rw [foldl_digits_val _ (fun dg hdg => Nat.digits_lt_base (by norm_num) hdg) 0]
    simp [Nat.ofDigits_digits]

theorem padNum_isDigit (w n : ℕ) : ∀ c ∈ padNum w n, c.isDigit = true := by
  intro c hc
  rcases List.mem_append.mp hc with h | h
  · rw [List.eq_of_mem_replicate h]
    decide
  · exact natToDigits_isDigit n c h

theorem padNum_ne_nil (w n : ℕ) : padNum w n ≠ [] := by
  unfold padNum
  intro h
  exact natToDigits_ne_nil n (List.append_eq_nil.mp h).2

theorem digitsToNat_padNum (w n : ℕ) : digitsToNat (padNum w n) = n := by
  unfold padNum digitsToNat
  rw [List.foldl_append]
  have hz : ∀ (k : ℕ),
      List.foldl (fun acc c => 10 * acc + (c.toNat - 48)) 0 (List.replicate k '0') = 0 := by
    intro k
    induction k with
    | zero => rfl
    | succ k ih =>
      rw [List.replicate_succ, List.foldl_cons]
      simpa using ih
  rw [hz]
  exact digitsToNat_natToDigits n

theorem isDigit_not_special {c : Char} (h : c.isDigit = true) :
    isSpaceB c = false ∧ c ≠ ',' ∧ c ≠ '-' := by
  refine ⟨?_, ?_, ?_⟩
  · by_contra hs
    rw [Bool.not_eq_false] at hs
    simp only [isSpaceB, Bool.or_eq_true, decide_eq_true_eq] at hs
    rcases hs with ((((rfl | rfl) | rfl) | rfl) | rfl) | rfl <;>
      exact absurd h (by decide)
  · rintro rfl
    exact absurd h (by decide)
  · rintro rfl
    exact absurd h (by decide)

/-! ## Tokenisation of replies in the prompted format -/

theorem splitWSAux_nospace : ∀ (w acc : List Char),
    (∀ c ∈ w, isSpaceB c = false) →
    splitWSAux w acc = if acc.reverse ++ w = [] then [] else [acc.reverse ++ w] := by
  intro w
  induction w with
  | nil =>
    intro acc _
    by_cases ha : acc = []
    · simp [splitWSAux, ha]
    · rw [show splitWSAux [] acc = [acc.reverse] by simp [splitWSAux, ha]]
      rw [if_neg (by simp [ha])]
      simp
  | cons c w ih =>
    intro acc h
    rw [show splitWSAux (c :: w) acc = splitWSAux w (c :: acc) by
      simp [splitWSAux, h c (List.mem_cons_self _ _)]]
    rw [ih (c :: acc) (fun x hx => h x (List.mem_cons_of_mem _ hx))]
    rw [if_neg (by simp), if_neg (by simp)]
    simp

theorem splitWS_single (w : List Char) (hne : w ≠ [])
    (h : ∀ c ∈ w, isSpaceB c = false) : splitWS w = [w] := by
  unfold splitWS
  rw [splitWSAux_nospace w [] h]
  simp [hne]

theorem splitWSAux_sep (c : Char) (hc : isSpaceB c = true) :
    ∀ (s t acc : List Char),
      splitWSAux (s ++ c :: t) acc = splitWSAux s acc ++ splitWS t := by
  intro s
  induction s with
  | nil =>
    intro t acc
    by_cases ha : acc = []
    · subst ha
      simp [splitWSAux, hc, splitWS]
    · rw [show splitWSAux ([] ++ c :: t) acc = acc.reverse :: splitWSAux t [] by
        simp [splitWSAux, hc, ha]]
      rw [show splitWSAux [] acc = [acc.reverse] by simp [splitWSAux, ha]]
      rfl
  | cons x s ih =>
    intro t acc
    by_cases hx : isSpaceB x = true
    · by_cases ha : acc = []
      · subst ha
        rw [show splitWSAux ((x :: s) ++ c :: t) [] = splitWSAux (s ++ c :: t) [] by
          simp [splitWSAux, hx]]
        rw [show splitWSAux (x :: s) ([] : List Char) = splitWSAux s [] by
          simp [splitWSAux, hx]]
        exact ih t []
      · rw [show splitWSAux ((x :: s) ++ c :: t) acc =
            acc.reverse :: splitWSAux (s ++ c :: t) [] by simp [splitWSAux, hx, ha]]
        rw [show splitWSAux (x :: s) acc = acc.reverse :: splitWSAux s [] by
          simp [splitWSAux, hx, ha]]
        rw [ih t []]
        rfl
    · rw [show splitWSAux ((x :: s) ++ c :: t) acc =
          splitWSAux (s ++ c :: t) (x :: acc) by
        simp [splitWSAux, hx]]
      rw [show splitWSAux (x :: s) acc = splitWSAux s (x :: acc) by
        simp [splitWSAux, hx]]
      exact ih t (x :: acc)

theorem splitWS_sep (c : Char) (hc : isSpaceB c = true) (s t : List Char) :
    splitWS (s ++ c :: t) = splitWS s ++ splitWS t :=
  splitWSAux_sep c hc s t []

theorem splitWS_cons_space (c : Char) (hc : isSpaceB c = true) (t : List Char) :
    splitWS (c :: t) = splitWS t := by
  have := splitWS_sep c hc [] t
  simpa [splitWS, splitWSAux] using this

theorem splitWSAux_collapseDS (s : List Char) :
    ∀ acc, splitWSAux (collapseDS s) acc = splitWSAux s acc := by
  induction s using collapseDS.induct with
  | case1 =>
    intro acc
    rfl
  | case2 c =>
    intro acc
    rfl
  | case3 c1 c2 rest hb ih =>
    intro acc
    obtain ⟨rfl, rfl⟩ := hb
    rw [show collapseDS (' ' :: ' ' :: rest) = ' ' :: collapseDS rest by
      simp [collapseDS]]
    by_cases ha : acc = []
    · subst ha
      rw [show splitWSAux (' ' :: collapseDS rest) [] = splitWSAux (collapseDS rest) [] by
        simp [splitWSAux, isSpaceB]]
      rw [show splitWSAux (' ' :: ' ' :: rest) ([] : List Char) = splitWSAux rest [] by
        simp [splitWSAux, isSpaceB]]
      exact ih []
    · rw [show splitWSAux (' ' :: collapseDS rest) acc =
          acc.reverse :: splitWSAux (collapseDS rest) [] by
        simp [splitWSAux, isSpaceB, ha]]
      rw [show splitWSAux (' ' :: ' ' :: rest) acc =
          acc.reverse :: splitWSAux rest [] by simp [splitWSAux, isSpaceB, ha]]
      rw [ih []]
  | case4 c1 c2 rest hb ih =>
    intro acc
    rw [show collapseDS (c1 :: c2 :: rest) = c1 :: collapseDS (c2 :: rest) by
      simp [collapseDS, hb]]
    by_cases hx : isSpaceB c1 = true
    · by_cases ha : acc = []
      · subst ha
        rw [show splitWSAux (c1 :: collapseDS (c2 :: rest)) [] =
            splitWSAux (collapseDS (c2 :: rest)) [] by simp [splitWSAux, hx]]
        rw [show splitWSAux (c1 :: c2 :: rest) ([] : List Char) =
            splitWSAux (c2 :: rest) [] by simp [splitWSAux, hx]]
        exact ih []
      · rw [show splitWSAux (c1 :: collapseDS (c2 :: rest)) acc =
            acc.reverse :: splitWSAux (collapseDS (c2 :: rest)) [] by
          simp [splitWSAux, hx, ha]]
        rw [show splitWSAux (c1 :: c2 :: rest) acc =
            acc.reverse :: splitWSAux (c2 :: rest) [] by simp [splitWSAux, hx, ha]]
        rw [ih []]
    · rw [show splitWSAux (c1 :: collapseDS (c2 :: rest)) acc =
          splitWSAux (collapseDS (c2 :: rest)) (c1 :: acc) by simp [splitWSAux, hx]]
      rw [show splitWSAux (c1 :: c2 :: rest) acc =
          splitWSAux (c2 :: rest) (c1 :: acc) by simp [splitWSAux, hx]]
      exact ih (c1 :: acc)

theorem splitWS_collapseDS (s : List Char) : splitWS (collapseDS s) = splitWS s :=
  splitWSAux_collapseDS s []

theorem replDC_append (s t : List Char) :
    replDashComma (s ++ t) = replDashComma s ++ replDashComma t := by
  simp [replDashComma, replaceChar]

theorem replDC_digits (s : List Char) (h : ∀ c ∈ s, c.isDigit = true) :
    replDashComma s = s := by
  unfold replDashComma replaceChar
  rw [List.map_map]
  have hid : ∀ c ∈ s,
      ((fun c => if c = ',' then ' ' else c) ∘ fun c => if c = '-' then ' ' else c) c
        = c := by
    intro c hc
    obtain ⟨_, h2, h3⟩ := isDigit_not_special (h c hc)
    simp [Function.comp, h2, h3]
  rw [List.map_congr_left hid]
  simp

theorem splitWS_replDC_join : ∀ (ts : List (List Char)),
    (∀ t ∈ ts, t ≠ [] ∧ ∀ c ∈ t, c.isDigit = true) →
    splitWS (replDashComma (joinComma ts)) = ts := by
  intro ts
  induction ts with
  | nil =>
    intro _
    rfl
  | cons t1 ts ih =>
    intro h
    cases ts with
    | nil =>
      obtain ⟨hne, hdig⟩ := h t1 (List.mem_cons_self _ _)
      rw [show joinComma [t1] = t1 from rfl, replDC_digits t1 hdig]
      exact splitWS_single t1 hne
        (fun c hc => (isDigit_not_special (hdig c hc)).1)
    | cons t2 ts =>
      obtain ⟨hne, hdig⟩ := h t1 (List.mem_cons_self _ _)
      rw [show joinComma (t1 :: t2 :: ts) = t1 ++ ',' :: ' ' :: joinComma (t2 :: ts)
        from rfl]
      rw [show t1 ++ ',' :: ' ' :: joinComma (t2 :: ts) =
        t1 ++ [','] ++ ' ' :: joinComma (t2 :: ts) by simp]
      rw [replDC_append, replDC_append, replDC_digits t1 hdig]
      rw [show replDashComma [','] = [' '] from rfl]
      rw [show replDashComma (' ' :: joinComma (t2 :: ts)) =
        ' ' :: replDashComma (joinComma (t2 :: ts)) from rfl]
      rw [show t1 ++ [' '] ++ ' ' :: replDashComma (joinComma (t2 :: ts)) =
        t1 ++ ' ' :: (' ' :: replDashComma (joinComma (t2 :: ts))) by simp]
      rw [splitWS_sep ' ' (by decide) t1]
      rw [splitWS_cons_space ' ' (by decide)]
      rw [splitWS_single t1 hne (fun c hc => (isDigit_not_special (hdig c hc)).1)]
      rw [ih (fun t ht => h t (List.mem_cons_of_mem _ ht))]
      rfl

theorem takeWhile_all (p : Char → Bool) : ∀ (a : List Char),
    (∀ c ∈ a, p c = true) → a.takeWhile p = a := by
  intro a
  induction a with
  | nil => intro _; rfl
  | cons x a ih =>
    intro h
    rw [List.takeWhile_cons_of_pos (h x (List.mem_cons_self _ _))]
    rw [ih (fun c hc => h c (List.mem_cons_of_mem _ hc))]

theorem takeWhile_all_append (p : Char → Bool) : ∀ (a : List Char) (c' : Char)
    (b : List Char), (∀ c ∈ a, p c = true) → p c' = false →
    (a ++ c' :: b).takeWhile p = a := by
  intro a
  induction a with
  | nil =>
    intro c' b _ hc
    simp [List.takeWhile_cons_of_neg, hc]
  | cons x a ih =>
    intro c' b h hc
    rw [List.cons_append, List.takeWhile_cons_of_pos (h x (List.mem_cons_self _ _))]
    rw [ih c' b (fun c hcm => h c (List.mem_cons_of_mem _ hcm)) hc]

theorem firstNum_allDigits (s : List Char) (hne : s ≠ [])
    (h : ∀ c ∈ s, c.isDigit = true) : firstNum s = some (digitsToNat s) := by
  cases s with
  | nil => exact absurd rfl hne
  | cons c rest =>
    unfold firstNum firstRun
    rw [if_pos (h c (List.mem_cons_self _ _))]
    rw [takeWhile_all _ _ h]
    rfl

theorem firstNum_digits_append (a : List Char) (c' : Char) (b : List Char)
    (hne : a ≠ []) (h : ∀ c ∈ a, c.isDigit = true) (hc : c'.isDigit = false) :
    firstNum (a ++ c' :: b) = some (digitsToNat a) := by
  cases a with
  | nil => exact absurd rfl hne
  | cons x a =>
    unfold firstNum
    rw [List.cons_append]
    rw [show firstRun (x :: (a ++ c' :: b)) =
      some ((x :: (a ++ c' :: b)).takeWhile Char.isDigit) by
      simp [firstRun, h x (List.mem_cons_self _ _)]]
    rw [show x :: (a ++ c' :: b) = (x :: a) ++ c' :: b from rfl]
    rw [takeWhile_all_append _ _ _ _ h hc]
    rfl

theorem firstNum_padNum (w n : ℕ) : firstNum (padNum w n) = some n := by
  rw [firstNum_allDigits _ (padNum_ne_nil w n) (padNum_isDigit w n),
    digitsToNat_padNum]

theorem splitWS_date_head (X : List Char) :
    splitWS ("Date: ".toList ++ X) = "Date:".toList :: splitWS X := by
  rw [show ("Date: ".toList ++ X) = "Date:".toList ++ ' ' :: X from rfl]
  rw [splitWS_sep ' ' (by decide)]
  rw [splitWS_single ("Date:".toList) (by decide) (by decide)]
  rfl

theorem splitWS_numbers_head (X : List Char) :
    splitWS ("Numbers: ".toList ++ X) = "Numbers:".toList :: splitWS X := by
  rw [show ("Numbers: ".toList ++ X) = "Numbers:".toList ++ ' ' :: X from rfl]
  rw [splitWS_sep ' ' (by decide)]
  rw [splitWS_single ("Numbers:".toList) (by decide) (by decide)]
  rfl

theorem tokensOf_mkReply (d m y : ℕ) (ns : List ℕ) :
    tokensOf (mkReply d m y ns) =
      "Date:".toList ::
        (padNum 2 d ++ "/".toList ++ padNum 2 m ++ "/".toList ++ padNum 4 y) ::
        "Numbers:".toList :: ns.map (padNum 2) := by
  unfold tokensOf mkReply
  rw [splitWS_collapseDS]
  rw [replDC_append, replDC_append, replDC_append, replDC_append, replDC_append,
    replDC_append, replDC_append]
  rw [replDC_digits (padNum 2 d) (padNum_isDigit 2 d),
    replDC_digits (padNum 2 m) (padNum_isDigit 2 m),
    replDC_digits (padNum 4 y) (padNum_isDigit 4 y)]
  rw [show replDashComma ("Date: ".toList) = "Date: ".toList from rfl]
  rw [show replDashComma ("/".toList) = "/".toList from rfl]
  rw [show replDashComma ("\nNumbers: ".toList) = "\nNumbers: ".toList from rfl]
  rw [List.append_assoc, List.append_assoc, List.append_assoc, List.append_assoc,
    List.append_assoc, List.append_assoc, List.append_assoc]
  rw [splitWS_date_head]
  rw [show ("\nNumbers: ".toList ++ replDashComma (joinComma (ns.map (padNum 2)))) =
    '\n' :: ("Numbers: ".toList ++ replDashComma (joinComma (ns.map (padNum 2))))
    from rfl]
  have hre : padNum 2 d ++ ("/".toList ++ (padNum 2 m ++ ("/".toList ++ (padNum 4 y ++
      '\n' :: ("Numbers: ".toList ++ replDashComma (joinComma (ns.map (padNum 2)))))))) =
      (padNum 2 d ++ "/".toList ++ padNum 2 m ++ "/".toList ++ padNum 4 y) ++
        '\n' :: ("Numbers: ".toList ++ replDashComma (joinComma (ns.map (padNum 2)))) := by
    simp [List.append_assoc]
  rw [hre]
  rw [splitWS_sep '\n' (by decide)]
  have htok : splitWS
      (padNum 2 d ++ "/".toList ++ padNum 2 m ++ "/".toList ++ padNum 4 y) =
      [padNum 2 d ++ "/".toList ++ padNum 2 m ++ "/".toList ++ padNum 4 y] := by
    apply splitWS_single
    · intro hnil
      rcases List.append_eq_nil.mp hnil with ⟨h1, _⟩
      rcases List.append_eq_nil.mp h1 with ⟨h2, _⟩
      rcases List.append_eq_nil.mp h2 with ⟨h3, _⟩
      rcases List.append_eq_nil.mp h3 with ⟨h4, _⟩
      exact padNum_ne_nil 2 d h4
    · intro c hc
      rcases List.mem_append.mp hc with h1 | h1
      · rcases List.mem_append.mp h1 with h2 | h2
        · rcases List.mem_append.mp h2 with h3 | h3
          · rcases List.mem_append.mp h3 with h4 | h4
            · exact (isDigit_not_special (padNum_isDigit 2 d c h4)).1
            · rw [List.mem_singleton.mp h4]
              decide
          · exact (isDigit_not_special (padNum_isDigit 2 m c h3)).1
        · rw [List.mem_singleton.mp h2]
          decide
      · exact (isDigit_not_special (padNum_isDigit 4 y c h1)).1
  rw [htok]
  rw [splitWS_numbers_head]
  rw [splitWS_replDC_join (ns.map (padNum 2)) ?_]
  · simp [List.append_assoc]
  · intro t ht
    obtain ⟨n, _, rfl⟩ := List.mem_map.mp ht
    exact ⟨padNum_ne_nil 2 n, padNum_isDigit 2 n⟩

theorem filterMap_firstNum_pads : ∀ (ns : List ℕ),
    List.filterMap firstNum (ns.map (padNum 2)) = ns := by
  intro ns
  induction ns with
  | nil => rfl
  | cons n ns ih =>
    rw [List.map_cons, List.filterMap_cons_some (firstNum_padNum 2 n), ih]

theorem candidatesOf_mkReply (d m y : ℕ) (ns : List ℕ) :
    candidatesOf (mkReply d m y ns) = d :: ns := by
  unfold candidatesOf
  rw [tokensOf_mkReply]
  rw [List.filterMap_cons_none (by decide : firstNum ("Date:".toList) = none)]
  have hdate : firstNum
      (padNum 2 d ++ "/".toList ++ padNum 2 m ++ "/".toList ++ padNum 4 y) =
      some d := by
    rw [show padNum 2 d ++ "/".toList ++ padNum 2 m ++ "/".toList ++ padNum 4 y =
      padNum 2 d ++ '/' :: (padNum 2 m ++ "/".toList ++ padNum 4 y) by
      simp [List.append_assoc]]
    rw [firstNum_digits_append _ _ _ (padNum_ne_nil 2 d) (padNum_isDigit 2 d)
      (by decide)]
    rw [digitsToNat_padNum]
  rw [List.filterMap_cons_some hdate]
  rw [List.filterMap_cons_none (by decide : firstNum ("Numbers:".toList) = none)]
  rw [filterMap_firstNum_pads]

theorem dedupFrom_of_disjoint : ∀ (l seen : List ℕ), l.Nodup →
    (∀ x ∈ l, x ∉ seen) → dedupFrom seen l = l := by
  intro l
  induction l with
  | nil =>
    intro seen _ _
    rfl
  | cons n l ih =>
    intro seen hnd hdisj
    rw [show dedupFrom seen (n :: l) = n :: dedupFrom (n :: seen) l by
      simp [dedupFrom, hdisj n (List.mem_cons_self _ _)]]
    rw [ih (n :: seen) (List.nodup_cons.mp hnd).2 ?_]
    intro x hx hc
    rcases List.mem_cons.mp hc with rfl | hc2
    · exact (List.nodup_cons.mp hnd).1 hx
    · exact hdisj x (List.mem_cons_of_mem _ hx) hc2

/-- C5: on the input `"Numbers: 01, 15, 23, 34, 42, 55"` with valid range
[1,55], `parse_numbers_from_response` returns exactly `[1, 15, 23, 34, 42, 55]`. -/
theorem c5_concrete_numbers :
    Power.parse_numbers_from_response ("Numbers: 01, 15, 23, 34, 42, 55".toList) =
      [1, 15, 23, 34, 42, 55] := by decide

/-- C1: a reply whose first `Date:` match is a well-formed calendar date and
which contains at least six distinct integers in the game's valid range
([1,55] for the Power script, [1,45] for the Mega script) yields exactly six
pairwise-distinct, ascending, in-range integers for that game, and the
(non-`None`) date of the first `Date:` match. -/
theorem c1_extraction_success (reply : List Char) (d m y : ℕ)
    (hdate : findDate reply = some (d, m, y))
    (hval : validDatetime y m d 18 0 0 = true) :
    (6 ≤ distinctInRange 1 55 reply →
      (Power.parse_numbers_from_response reply).length = 6 ∧
      (Power.parse_numbers_from_response reply).Nodup ∧
      List.Sorted (· ≤ ·) (Power.parse_numbers_from_response reply) ∧
      ∀ x ∈ Power.parse_numbers_from_response reply, 1 ≤ x ∧ x ≤ 55) ∧
    (6 ≤ distinctInRange 1 45 reply →
      (Mega.parse_numbers_from_response reply).length = 6 ∧
      (Mega.parse_numbers_from_response reply).Nodup ∧
      List.Sorted (· ≤ ·) (Mega.parse_numbers_from_response reply) ∧
      ∀ x ∈ Mega.parse_numbers_from_response reply, 1 ≤ x ∧ x ≤ 45) ∧
    Power.parse_date_from_response reply = Except.ok (some ⟨y, m, d, 18, 0, 0⟩) ∧
    Mega.parse_date_from_response reply = Except.ok (some ⟨y, m, d, 18, 0, 0⟩) := by
  have hdt : parseDate reply = Except.ok (some ⟨y, m, d, 18, 0, 0⟩) := by
    simp [parseDate, hdate, mkDatetime, hval, Except.map]
  refine ⟨fun h55 => ⟨?_, parseNums_nodup 1 55 reply, parseNums_sorted 1 55 reply,
      fun x hx => (parseNums_mem hx).2⟩,
    fun h45 => ⟨?_, parseNums_nodup 1 45 reply, parseNums_sorted 1 45 reply,
      fun x hx => (parseNums_mem hx).2⟩, hdt, hdt⟩
  · rw [Power.parse_numbers_from_response, parseNums_length]
    omega
  · rw [Mega.parse_numbers_from_response, parseNums_length]
    omega

/-- Witness for C1: the Power branch on a reply listing 50 and 55 (in range
only for the 6/55 game), and the Mega branch on a reply bounded by 44. -/
theorem c1_extraction_success_witness :
    (Power.parse_numbers_from_response
        ("Date: 05/03/2024\nNumbers: 10, 20, 30, 40, 50, 55".toList)).length = 6 ∧
    Power.parse_date_from_response
        ("Date: 05/03/2024\nNumbers: 10, 20, 30, 40, 50, 55".toList) =
      Except.ok (some ⟨2024, 3, 5, 18, 0, 0⟩) ∧
    (Mega.parse_numbers_from_response
        ("Date: 05/03/2024\nNumbers: 01, 15, 23, 34, 42, 44".toList)).length = 6 :=
  ⟨((c1_extraction_success ("Date: 05/03/2024\nNumbers: 10, 20, 30, 40, 50, 55".toList)
      5 3 2024 (by decide) (by decide)).1 (by decide)).1,
    (c1_extraction_success ("Date: 05/03/2024\nNumbers: 10, 20, 30, 40, 50, 55".toList)
      5 3 2024 (by decide) (by decide)).2.2.1,
    ((c1_extraction_success ("Date: 05/03/2024\nNumbers: 01, 15, 23, 34, 42, 44".toList)
      5 3 2024 (by decide) (by decide)).2.1 (by decide)).1⟩

/-- C6: whenever the first `Date:` match of the reply is `05/03/2024`, date
extraction returns 5 March 2024 at 18:00:00, and `save_draw` persists it in
ISO form with a trailing `Z` suffix. -/
theorem c6_date_parse_and_save (text : List Char) (n : ℕ) (nums : List ℕ)
    (h : findDate text = some (5, 3, 2024)) :
    Power.parse_date_from_response text = Except.ok (some ⟨2024, 3, 5, 18, 0, 0⟩) ∧
    (Power.save_draw n nums ⟨2024, 3, 5, 18, 0, 0⟩).draw_date =
      "2024-03-05T18:00:00Z".toList := by
  constructor
  · have hv : validDatetime 2024 3 5 18 0 0 = true := by decide
    simp [Power.parse_date_from_response, parseDate, h, mkDatetime, hv, Except.map]
  · show isoformat ⟨2024, 3, 5, 18, 0, 0⟩ ++ ['Z'] = "2024-03-05T18:00:00Z".toList
    decide

/-- Witness for C6 on the literal reply `"Date: 05/03/2024"`. -/
theorem c6_date_parse_and_save_witness :
    Power.parse_date_from_response ("Date: 05/03/2024".toList) =
      Except.ok (some ⟨2024, 3, 5, 18, 0, 0⟩) ∧
    (Power.save_draw 1 [1, 2, 3, 4, 5, 6] ⟨2024, 3, 5, 18, 0, 0⟩).draw_date =
      "2024-03-05T18:00:00Z".toList :=
  c6_date_parse_and_save ("Date: 05/03/2024".toList) 1 [1, 2, 3, 4, 5, 6] (by decide)

/-- C8: with no explicit key and `OPENAI_API_KEY` unset, both constructors
abort with the remediation message before performing any effect. -/
theorem c8_missing_api_key (env : List Char → Option (List Char))
    (listing listing2 : List (List Char))
    (h : env ("OPENAI_API_KEY".toList) = none) :
    Power.initClient none env listing = (Except.error apiKeyErrMsg, []) ∧
    Mega.initClient none env listing2 = (Except.error apiKeyErrMsg, []) ∧
    hasSub ("https://platform.openai.com/api-keys".toList) apiKeyErrMsg = true ∧
    hasSub ("export OPENAI_API_KEY".toList) apiKeyErrMsg = true := by
  refine ⟨?_, ?_, by decide, by decide⟩
  · unfold Power.initClient
    rw [h]
  · unfold Mega.initClient
    rw [h]

/-- Witness for C8 with an empty environment. -/
theorem c8_missing_api_key_witness :
    Power.initClient none (fun _ => none) [] = (Except.error apiKeyErrMsg, []) ∧
    hasSub ("export OPENAI_API_KEY".toList) apiKeyErrMsg = true :=
  ⟨(c8_missing_api_key (fun _ => none) [] [] rfl).1,
    (c8_missing_api_key (fun _ => none) [] [] rfl).2.2.2⟩

theorem lookupF_setF (store : List (List Char × DrawRec)) (k : List Char)
    (v : DrawRec) : lookupF (setF store k v) k = some v := by
  simp [setF, lookupF]

theorem power_processOne_success (existing : List (List Char))
    (store : List (List Char × DrawRec)) (c : Counters) (n : ℕ) (reply : List Char)
    (numbers : List ℕ) (dt : PyDatetime)
    (hE : Power.extract_numbers_with_chatgpt reply = Except.ok (numbers, some dt))
    (hL : numbers.length = 6) :
    Power.processOne existing store c n reply =
      (setF store ("power_".toList ++ padNum 5 n ++ ".json".toList)
          (Power.save_draw n numbers dt),
        { c with total := c.total + 1, saved := c.saved + 1 },
        (if "power_".toList ++ padNum 5 n ∈ existing then [Action.updateNotice]
          else []) ++
          [Action.modelCall,
            Action.write ("power_".toList ++ padNum 5 n ++ ".json".toList)
              (Power.save_draw n numbers dt)]) := by
  unfold Power.processOne
  rw [hE]
  simp [hL]

theorem power_processOne_dateError (existing : List (List Char))
    (store : List (List Char × DrawRec)) (c : Counters) (n : ℕ) (reply : List Char)
    (e : List Char) (h : Power.parse_date_from_response reply = Except.error e) :
    Power.processOne existing store c n reply =
      (store, { c with failed := c.failed + 1 },
        (if "power_".toList ++ padNum 5 n ∈ existing then [Action.updateNotice]
          else []) ++ [Action.modelCall]) := by
  unfold Power.processOne Power.extract_numbers_with_chatgpt
  rw [h]

theorem power_processOne_noSave (existing : List (List Char))
    (store : List (List Char × DrawRec)) (c : Counters) (n : ℕ) (reply : List Char)
    (h : (Power.parse_numbers_from_response reply).length ≠ 6) :
    (Power.processOne existing store c n reply).1 = store ∧
    (Power.processOne existing store c n reply).2.1.failed = c.failed + 1 ∧
    ∀ a ∈ (Power.processOne existing store c n reply).2.2,
      ∀ f r, a ≠ Action.write f r := by
  have hact : ∀ a ∈ (if "power_".toList ++ padNum 5 n ∈ existing
      then [Action.updateNotice] else []) ++ [Action.modelCall],
      ∀ f r, a ≠ Action.write f r := by
    intro a ha f r
    rcases List.mem_append.mp ha with h1 | h1
    · by_cases hex : "power_".toList ++ padNum 5 n ∈ existing
      · rw [if_pos hex] at h1
        rw [List.mem_singleton.mp h1]
        simp
      · rw [if_neg hex] at h1
        simp at h1
    · rw [List.mem_singleton.mp h1]
      simp
  cases hD : Power.parse_date_from_response reply with
  | error e =>
    rw [power_processOne_dateError existing store c n reply e hD]
    exact ⟨rfl, rfl, hact⟩
  | ok odt =>
    have hE : Power.extract_numbers_with_chatgpt reply =
        Except.ok (Power.parse_numbers_from_response reply, odt) := by
      unfold Power.extract_numbers_with_chatgpt
      rw [hD]
    have hP : Power.processOne existing store c n reply =
        (store, { c with total := c.total + 1, failed := c.failed + 1 },
          (if "power_".toList ++ padNum 5 n ∈ existing then [Action.updateNotice]
            else []) ++ [Action.modelCall]) := by
      unfold Power.processOne
      rw [hE]
      cases odt with
      | none => rfl
      | some dt => simp [h]
    rw [hP]
    exact ⟨rfl, rfl, hact⟩

/-- C3: a reply with fewer than six distinct in-range integers parses to a
list of length < 6 whose members all occur in the reply (nothing is padded or
invented), and the Power orchestrator then saves nothing, increments the
failed counter, and continues. -/
theorem c3_incomplete_extraction (reply : List Char) (existing : List (List Char))
    (store : List (List Char × DrawRec)) (c : Counters) (n : ℕ)
    (h : distinctInRange 1 55 reply < 6) :
    (Power.parse_numbers_from_response reply).length < 6 ∧
    (∀ x ∈ Power.parse_numbers_from_response reply, x ∈ candidatesOf reply) ∧
    (Power.processOne existing store c n reply).1 = store ∧
    (Power.processOne existing store c n reply).2.1.failed = c.failed + 1 ∧
    ∀ a ∈ (Power.processOne existing store c n reply).2.2,
      ∀ f r, a ≠ Action.write f r := by
  have hlen : (Power.parse_numbers_from_response reply).length < 6 := by
    rw [Power.parse_numbers_from_response, parseNums_length]
    omega
  have hns := power_processOne_noSave existing store c n reply (by omega)
  exact ⟨hlen, fun x hx => (parseNums_mem hx).1, hns.1, hns.2.1, hns.2.2⟩

/-- Witness for C3 on a reply with only three distinct in-range integers. -/
theorem c3_incomplete_extraction_witness :
    (Power.parse_numbers_from_response ("Numbers: 01, 02, 03".toList)).length < 6 ∧
    (Power.processOne [] [] ⟨0, 0, 0⟩ 7
      ("Numbers: 01, 02, 03".toList)).2.1.failed = 0 + 1 :=
  ⟨(c3_incomplete_extraction ("Numbers: 01, 02, 03".toList) [] [] ⟨0, 0, 0⟩ 7
      (by decide)).1,
    (c3_incomplete_extraction ("Numbers: 01, 02, 03".toList) [] [] ⟨0, 0, 0⟩ 7
      (by decide)).2.2.2.1⟩

/-- C2: a draw id already present in the existing-output set makes the Mega
orchestrator skip the draw entirely (state unchanged, no effects), while the
Power orchestrator merely emits an updating notice, still calls the model,
and on success overwrites the draw's output file. -/
theorem c2_skip_versus_overwrite (existingM existingP : List (List Char))
    (storeM storeP : List (List Char × DrawRec)) (pdfFs imageFs : List (List Char))
    (cM cP : Counters) (n : ℕ) (url : List Char) (kd : Option PyDatetime)
    (o : Mega.MegaOracle) (reply : List Char) (numbers : List ℕ) (dt : PyDatetime)
    (hM : "mega_".toList ++ padNum 5 n ∈ existingM)
    (hP : "power_".toList ++ padNum 5 n ∈ existingP)
    (hE : Power.extract_numbers_with_chatgpt reply = Except.ok (numbers, some dt))
    (hL : numbers.length = 6) :
    Mega.processOne existingM storeM pdfFs imageFs cM n url kd o =
      (storeM, pdfFs, imageFs, cM, []) ∧
    (Power.processOne existingP storeP cP n reply).2.2 =
      [Action.updateNotice, Action.modelCall,
        Action.write ("power_".toList ++ padNum 5 n ++ ".json".toList)
          (Power.save_draw n numbers dt)] ∧
    lookupF (Power.processOne existingP storeP cP n reply).1
        ("power_".toList ++ padNum 5 n ++ ".json".toList) =
      some (Power.save_draw n numbers dt) ∧
    (Power.processOne existingP storeP cP n reply).2.1 =
      { total := cP.total + 1, saved := cP.saved + 1, failed := cP.failed } := by
  have hMega : Mega.processOne existingM storeM pdfFs imageFs cM n url kd o =
      (storeM, pdfFs, imageFs, cM, []) := by
    unfold Mega.processOne
    rw [if_pos hM]
  have hPow := power_processOne_success existingP storeP cP n reply numbers dt hE hL
  refine ⟨hMega, ?_, ?_, ?_⟩
  · rw [hPow, if_pos hP]
    rfl
  · rw [hPow]
    exact lookupF_setF _ _ _
  · rw [hPow]

/-- Witness for C2: draw 1 present in both existing sets; the Power pipeline
overwrites while the Mega pipeline leaves everything untouched. -/
theorem c2_skip_versus_overwrite_witness :
    Mega.processOne ["mega_00001".toList] [] [] [] ⟨0, 0, 0⟩ 1 [] none
      ⟨true, (0, true), []⟩ = ([], [], [], ⟨0, 0, 0⟩, []) ∧
    lookupF (Power.processOne ["power_00001".toList] [] ⟨0, 0, 0⟩ 1
        ("Date: 05/03/2024\nNumbers: 01, 02, 03, 04, 06, 07".toList)).1
        ("power_00001.json".toList) =
      some (Power.save_draw 1 [1, 2, 3, 4, 5, 6] ⟨2024, 3, 5, 18, 0, 0⟩) :=
  ⟨(c2_skip_versus_overwrite ["mega_00001".toList] ["power_00001".toList] [] []
      [] [] ⟨0, 0, 0⟩ ⟨0, 0, 0⟩ 1 [] none ⟨true, (0, true), []⟩
      ("Date: 05/03/2024\nNumbers: 01, 02, 03, 04, 06, 07".toList)
      [1, 2, 3, 4, 5, 6] ⟨2024, 3, 5, 18, 0, 0⟩ (by decide) (by decide) rfl
      (by decide)).1,
    (c2_skip_versus_overwrite ["mega_00001".toList] ["power_00001".toList] [] []
      [] [] ⟨0, 0, 0⟩ ⟨0, 0, 0⟩ 1 [] none ⟨true, (0, true), []⟩
      ("Date: 05/03/2024\nNumbers: 01, 02, 03, 04, 06, 07".toList)
      [1, 2, 3, 4, 5, 6] ⟨2024, 3, 5, 18, 0, 0⟩ (by decide) (by decide) rfl
      (by decide)).2.2.1⟩

/-- C10: a first `Date:` match denoting an impossible calendar date makes
`parse_date_from_response` raise (an `Except.error`, not `None`); the error
propagates out of the extraction step and is caught only at the per-draw
boundary, where the draw is counted as failed and nothing is written. -/
theorem c10_invalid_date_exception (text : List Char) (d m y : ℕ)
    (existing : List (List Char)) (store : List (List Char × DrawRec))
    (c : Counters) (n : ℕ)
    (hfind : findDate text = some (d, m, y))
    (hbad : validDatetime y m d 18 0 0 = false) :
    Power.parse_date_from_response text =
      Except.error ("ValueError: invalid date".toList) ∧
    Mega.parse_date_from_response text =
      Except.error ("ValueError: invalid date".toList) ∧
    Power.extract_numbers_with_chatgpt text =
      Except.error ("ValueError: invalid date".toList) ∧
    (Power.processOne existing store c n text).1 = store ∧
    (Power.processOne existing store c n text).2.1 =
      { c with failed := c.failed + 1 } ∧
    ∀ a ∈ (Power.processOne existing store c n text).2.2,
      ∀ f r, a ≠ Action.write f r := by
  have hD : parseDate text = Except.error ("ValueError: invalid date".toList) := by
    simp [parseDate, hfind, mkDatetime, hbad, Except.map]
  have hPD : Power.parse_date_from_response text =
      Except.error ("ValueError: invalid date".toList) := hD
  have hEx : Power.extract_numbers_with_chatgpt text =
      Except.error ("ValueError: invalid date".toList) := by
    unfold Power.extract_numbers_with_chatgpt
    rw [hPD]
  have hStep := power_processOne_dateError existing store c n text _ hPD
  refine ⟨hPD, hD, hEx, ?_, ?_, ?_⟩
  · rw [hStep]
  · rw [hStep]
  · rw [hStep]
    intro a ha f r
    rcases List.mem_append.mp ha with h1 | h1
    · by_cases hex : "power_".toList ++ padNum 5 n ∈ existing
      · rw [if_pos hex] at h1
        rw [List.mem_singleton.mp h1]
        simp
      · rw [if_neg hex] at h1
        simp at h1
    · rw [List.mem_singleton.mp h1]
      simp

/-- Witness for C10 on the reply `"Date: 32/01/2024"` (day 32). -/
theorem c10_invalid_date_exception_witness :
    Power.parse_date_from_response ("Date: 32/01/2024".toList) =
      Except.error ("ValueError: invalid date".toList) ∧
    (Power.processOne [] [] ⟨0, 0, 0⟩ 1 ("Date: 32/01/2024".toList)).2.1 =
      { total := 0, saved := 0, failed := 0 + 1 } :=
  ⟨(c10_invalid_date_exception ("Date: 32/01/2024".toList) 32 1 2024 [] []
      ⟨0, 0, 0⟩ 1 (by decide) (by decide)).1,
    (c10_invalid_date_exception ("Date: 32/01/2024".toList) 32 1 2024 [] []
      ⟨0, 0, 0⟩ 1 (by decide) (by decide)).2.2.2.2.1⟩

/-- C7: an already-existing target image makes both converters return its
path without invoking `pdftoppm`; hence a second call after a successful call
returns the same path with the external process run at most once in total. -/
theorem c7_convert_idempotent (r1 r2 : ℕ × Bool) (fs : List (List Char))
    (p : List Char) (n : ℕ) :
    (Power.imagePath n ∈ fs →
      Power.convert_pdf_to_image r1 fs p n = (Except.ok (Power.imagePath n), fs, 0)) ∧
    (Mega.imagePath n ∈ fs →
      Mega.convert_pdf_to_image r1 fs p n = (some (Mega.imagePath n), fs, 0)) ∧
    (∀ res fs1 k1, Power.convert_pdf_to_image r1 fs p n = (Except.ok res, fs1, k1) →
      Power.convert_pdf_to_image r2 fs1 p n = (Except.ok res, fs1, 0) ∧ k1 ≤ 1) ∧
    (∀ res fs1 k1, Mega.convert_pdf_to_image r1 fs p n = (some res, fs1, k1) →
      Mega.convert_pdf_to_image r2 fs1 p n = (some res, fs1, 0) ∧ k1 ≤ 1) := by
  refine ⟨fun hm => by simp [Power.convert_pdf_to_image, hm],
    fun hm => by simp [Mega.convert_pdf_to_image, hm], ?_, ?_⟩
  · intro res fs1 k1 h
    by_cases hm : Power.imagePath n ∈ fs
    · simp only [Power.convert_pdf_to_image, if_pos hm, Prod.mk.injEq,
        Except.ok.injEq] at h
      obtain ⟨h1, h2, h3⟩ := h
      subst h1; subst h2; subst h3
      exact ⟨by simp [Power.convert_pdf_to_image, hm], by omega⟩
    · simp only [Power.convert_pdf_to_image, if_neg hm] at h
      by_cases hrc : r1.1 ≠ 0
      · rw [if_pos hrc] at h
        simp at h
      · rw [if_neg hrc] at h
        by_cases hm2 : Power.imagePath n ∈
            (if r1.2 then Power.imagePath n :: fs else fs)
        · rw [if_pos hm2] at h
          simp only [Prod.mk.injEq, Except.ok.injEq] at h
          obtain ⟨h1, h2, h3⟩ := h
          subst h1; subst h2; subst h3
          exact ⟨by simp [Power.convert_pdf_to_image, hm2], by omega⟩
        · rw [if_neg hm2] at h
          simp at h
  · intro res fs1 k1 h
    by_cases hm : Mega.imagePath n ∈ fs
    · simp only [Mega.convert_pdf_to_image, if_pos hm, Prod.mk.injEq,
        Option.some.injEq] at h
      obtain ⟨h1, h2, h3⟩ := h
      subst h1; subst h2; subst h3
      exact ⟨by simp [Mega.convert_pdf_to_image, hm], by omega⟩
    · simp only [Mega.convert_pdf_to_image, if_neg hm] at h
      by_cases hrc : r1.1 ≠ 0
      · rw [if_pos hrc] at h
        simp at h
      · rw [if_neg hrc] at h
        by_cases hm2 : Mega.imagePath n ∈
            (if r1.2 then Mega.imagePath n :: fs else fs)
        · rw [if_pos hm2] at h
          simp only [Prod.mk.injEq, Option.some.injEq] at h
          obtain ⟨h1, h2, h3⟩ := h
          subst h1; subst h2; subst h3
          exact ⟨by simp [Mega.convert_pdf_to_image, hm2], by omega⟩
        · rw [if_neg hm2] at h
          simp at h

/-- C9: in the prompted two-line format, `parse_numbers_from_response` also
scans the `Date:` line; the day value `DD` (in range because it is at most 31)
is the first collected candidate, so the result always contains `DD`, and
whenever `DD` is not among the six listed numbers the last listed number is
dropped from the result. -/
theorem c9_date_day_interference (d m y : ℕ) (ns : List ℕ)
    (hd1 : 1 ≤ d) (hd2 : d ≤ 31) (hlen : ns.length = 6) (hnd : ns.Nodup) :
    candidatesOf (mkReply d m y ns) = d :: ns ∧
    ((∀ x ∈ ns, 1 ≤ x ∧ x ≤ 55) →
      d ∈ Power.parse_numbers_from_response (mkReply d m y ns) ∧
      (d ∉ ns →
        Power.parse_numbers_from_response (mkReply d m y ns) =
          List.insertionSort (· ≤ ·) (d :: ns.take 5) ∧
        ∀ x ∈ ns.drop 5,
          x ∉ Power.parse_numbers_from_response (mkReply d m y ns))) ∧
    ((∀ x ∈ ns, 1 ≤ x ∧ x ≤ 45) →
      d ∈ Mega.parse_numbers_from_response (mkReply d m y ns) ∧
      (d ∉ ns →
        Mega.parse_numbers_from_response (mkReply d m y ns) =
          List.insertionSort (· ≤ ·) (d :: ns.take 5) ∧
        ∀ x ∈ ns.drop 5,
          x ∉ Mega.parse_numbers_from_response (mkReply d m y ns))) := by
  have hcand := candidatesOf_mkReply d m y ns
  have main : ∀ hi : ℕ, 31 ≤ hi → (∀ x ∈ ns, 1 ≤ x ∧ x ≤ hi) →
      parseNums 1 hi (mkReply d m y ns) =
        List.insertionSort (· ≤ ·) (d :: (dedupFrom [d] ns).take 5) := by
    intro hi hhi hin
    rw [parseNums_eq, hcand]
    have hfil : (d :: ns).filter (inRangeF 1 hi) = d :: ns := by
      apply List.filter_eq_self.mpr
      intro a ha
      rcases List.mem_cons.mp ha with rfl | ha2
      · simp only [inRangeF, decide_eq_true_eq]
        omega
      · simp only [inRangeF, decide_eq_true_eq]
        exact hin a ha2
    rw [hfil]
    rw [show dedupFrom [] (d :: ns) = d :: dedupFrom [d] ns by simp [dedupFrom]]
    rfl
  have per : ∀ hi : ℕ, 31 ≤ hi → (∀ x ∈ ns, 1 ≤ x ∧ x ≤ hi) →
      d ∈ parseNums 1 hi (mkReply d m y ns) ∧
      (d ∉ ns →
        parseNums 1 hi (mkReply d m y ns) =
          List.insertionSort (· ≤ ·) (d :: ns.take 5) ∧
        ∀ x ∈ ns.drop 5, x ∉ parseNums 1 hi (mkReply d m y ns)) := by
    intro hi hhi hin
    have hm := main hi hhi hin
    constructor
    · rw [hm, List.mem_insertionSort]
      exact List.mem_cons_self _ _
    · intro hdn
      have hded : dedupFrom [d] ns = ns := by
        apply dedupFrom_of_disjoint ns [d] hnd
        intro x hx hc
        rw [List.mem_singleton.mp hc] at hx
        exact hdn hx
      rw [hded] at hm
      have hdisj : ∀ x ∈ ns.drop 5, x ∉ d :: ns.take 5 := by
        intro x hx hc
        rcases List.mem_cons.mp hc with rfl | hc2
        · exact hdn (List.mem_of_mem_drop hx)
        · have hnd2 : (ns.take 5 ++ ns.drop 5).Nodup := by
            rw [List.take_append_drop]
            exact hnd
          exact (List.nodup_append.mp hnd2).2.2 hc2 hx
      refine ⟨hm, ?_⟩
      intro x hx
      rw [hm, List.mem_insertionSort]
      exact hdisj x hx
  exact ⟨hcand, fun hin => per 55 (by omega) hin, fun hin => per 45 (by omega) hin⟩

/-- Witness for C9: day 7 with Power-range numbers 50..55 (the day is collected
first and the last listed number 55 is dropped), and the Mega branch with
numbers 1..6. -/
theorem c9_date_day_interference_witness :
    candidatesOf (mkReply 7 3 2024 [50, 51, 52, 53, 54, 55]) =
      7 :: [50, 51, 52, 53, 54, 55] ∧
    Power.parse_numbers_from_response (mkReply 7 3 2024 [50, 51, 52, 53, 54, 55]) =
      List.insertionSort (· ≤ ·) (7 :: [50, 51, 52, 53, 54, 55].take 5) ∧
    (55 : ℕ) ∉
      Power.parse_numbers_from_response (mkReply 7 3 2024 [50, 51, 52, 53, 54, 55]) ∧
    7 ∈ Mega.parse_numbers_from_response (mkReply 7 3 2024 [1, 2, 3, 4, 5, 6]) :=
  ⟨(c9_date_day_interference 7 3 2024 [50, 51, 52, 53, 54, 55] (by decide)
      (by decide) (by decide) (by decide)).1,
    (((c9_date_day_interference 7 3 2024 [50, 51, 52, 53, 54, 55] (by decide)
      (by decide) (by decide) (by decide)).2.1 (by decide)).2 (by decide)).1,
    (((c9_date_day_interference 7 3 2024 [50, 51, 52, 53, 54, 55] (by decide)
      (by decide) (by decide) (by decide)).2.1 (by decide)).2 (by decide)).2 55
      (by decide),
    ((c9_date_day_interference 7 3 2024 [1, 2, 3, 4, 5, 6] (by decide) (by decide)
      (by decide) (by decide)).2.2 (by decide)).1⟩

/-- Witness for C7: a successful fresh conversion followed by a second call. -/
theorem c7_convert_idempotent_witness :
    Power.convert_pdf_to_image (0, true) [Power.imagePath 1] ("a.pdf".toList) 1 =
      (Except.ok (Power.imagePath 1), [Power.imagePath 1], 0) ∧
    Power.convert_pdf_to_image (0, true) [Power.imagePath 1] ("a.pdf".toList) 1 =
      (Except.ok (Power.imagePath 1), [Power.imagePath 1], 0) ∧ (1 : ℕ) ≤ 1 :=
  ⟨(c7_convert_idempotent (0, true) (0, true) [Power.imagePath 1]
      ("a.pdf".toList) 1).1 (by simp),
    (c7_convert_idempotent (0, true) (0, true) [] ("a.pdf".toList) 1).2.2.1
      (Power.imagePath 1) [Power.imagePath 1] 1 rfl⟩

end Vietlott
